import Mathlib

/-!
# KonsulDok appointment availability engine — verification development

Shallow embedding of the appointment availability / conflict-resolution core
of the konsuldok-backend repository:

* `checkDoctorAvailability`, `createAppointment`, `updateAppointment`,
  `cancelAppointment` — from `src/api/services/appointment.service.js`;
* `fetchDoctorAvailabilitySlots` — from `src/api/services/doctor.service.js`;
* the Mongoose conflict query and the soft-delete pre-find hook from
  `src/models/base.model.js`.

Instants are modelled as integer milliseconds since the epoch in the server's
local calendar (the source performs all day-of-week / wall-clock computation
with the host's local `Date` accessors).  JavaScript string comparison on
zero-padded `"HH:MM"` strings is modelled by explicit code-unit
lexicographic comparison (`lexLe`).
-/

/-- Appointment statuses, from `AppointmentStatus` in `src/utils/constants.js`. -/
inductive AppointmentStatus where
  | requested
  | confirmed
  | cancelled
  | completed
  | noShow
deriving DecidableEq, Repr

/-- User roles, from `UserRoles` in `src/utils/constants.js`. -/
inductive UserRole where
  | admin
  | doctor
  | staff
  | patient
deriving DecidableEq, Repr

/-- One recurring weekly availability block (`WeeklyAvailabilitySchema` in
`doctorProfile.model.js`): `dayOfWeek` 0–6 as for `Date.getDay()`, and
`"HH:MM"` wall-clock strings. -/
structure WeeklyAvailabilityBlock where
  dayOfWeek : Int
  startTime : String
  endTime : String
deriving DecidableEq, Repr

/-- A doctor profile document (the fields the availability engine reads). -/
structure DoctorProfile where
  id : Nat
  weeklySchedule : List WeeklyAvailabilityBlock
  isDeleted : Bool
deriving DecidableEq, Repr

/-- A patient profile document (the fields the appointment service reads). -/
structure PatientProfile where
  id : Nat
  isDeleted : Bool
deriving DecidableEq, Repr

/-- An appointment document (`appointment.model.js`), restricted to the fields
the scheduling core reads or writes. -/
structure Appointment where
  id : Nat
  patient : Nat
  doctor : Nat
  appointmentTime : Int
  durationMinutes : Int
  status : AppointmentStatus
  cancellationReason : Option String
  completionNotes : Option String
  isDeleted : Bool
deriving DecidableEq, Repr

/-- The calling user (the fields the service layer reads). -/
structure User where
  id : Nat
  role : UserRole
  patientProfile : Option Nat
  doctorProfile : Option Nat
deriving DecidableEq, Repr

/-- `ApiError` kinds raised by the appointment core (`utils/ApiError.js`
status codes), plus the backing-store failure surfaced by a rejected query. -/
inductive ApiError where
  | notFound (msg : String)
  | badRequest (msg : String)
  | conflict (msg : String)
  | forbidden (msg : String)
  | infrastructure
deriving DecidableEq, Repr

/-- The persisted state and ambient inputs of one service call: the document
collections, the clock (`Date.now()`), and whether the appointment-collection
query rejects (data store unreachable). -/
structure Env where
  doctors : List DoctorProfile
  patients : List PatientProfile
  appointments : List Appointment
  now : Int
  queryFails : Bool
deriving Repr

/-! ## Time arithmetic (JavaScript `Date` accessors, server-local clock) -/

def msPerMinute : Int := 60000

def msPerHour : Int := 3600000

def msPerDay : Int := 86400000

/-- `date.getHours()` for an instant `t` in local-clock milliseconds. -/
def dateGetHours (t : Int) : Int := t / msPerHour % 24

/-- `date.getMinutes()`. -/
def dateGetMinutes (t : Int) : Int := t / msPerMinute % 60

/-- `date.getDay()`: 0 (Sunday) – 6 (Saturday); the epoch day was a Thursday. -/
def dateGetDay (t : Int) : Int := (t / msPerDay % 7 + 4) % 7

/-- Calendar-day index of an instant (used to state day-boundary crossing). -/
def dayIndex (t : Int) : Int := t / msPerDay

/-! ## JavaScript string comparison on code units -/

/-- Code-unit lexicographic `<=` on character lists: the semantics of the
JavaScript relational operators on strings. -/
def lexLe : List Char → List Char → Bool
  | [], _ => true
  | _ :: _, [] => false
  | a :: as, b :: bs =>
    if a.toNat < b.toNat then true
    else if b.toNat < a.toNat then false
    else lexLe as bs

/-- JavaScript `a <= b` on strings. -/
def strLe (a b : String) : Bool := lexLe a.data b.data

/-- The character for a single decimal digit (`String(n)` for `0 ≤ n ≤ 9`). -/
def digitChar (n : Nat) : Char := Char.ofNat (48 + n)

/-- `String(n).padStart(2, '0')` for `0 ≤ n ≤ 99`, as a character list. -/
def pad2 (n : Nat) : List Char := [digitChar (n / 10), digitChar (n % 10)]

/-- The zero-padded `"HH:MM"` string of a time-of-day given in minutes since
midnight (`0 ≤ m < 1440`). -/
def minutesToHHMM (m : Nat) : String := ⟨pad2 (m / 60) ++ ':' :: pad2 (m % 60)⟩

/-- `formatToHHMM` from `checkDoctorAvailability`: render an instant's local
wall-clock hours and minutes as a zero-padded `"HH:MM"` string. -/
def formatToHHMM (t : Int) : String :=
  ⟨pad2 (dateGetHours t).toNat ++ ':' :: pad2 (dateGetMinutes t).toNat⟩

/-- Character-list form of the schema regular expression
`/^(0[0-9]|1[0-9]|2[0-3]):([0-5][0-9])$/` validating block boundary strings. -/
def validHHMMChars : List Char → Bool
  | [h1, h2, c, m1, m2] =>
    c == ':' && (48 ≤ h1.toNat && h1.toNat ≤ 57) && (48 ≤ h2.toNat && h2.toNat ≤ 57)
      && (48 ≤ m1.toNat && m1.toNat ≤ 57) && (48 ≤ m2.toNat && m2.toNat ≤ 57)
      && (10 * (h1.toNat - 48) + (h2.toNat - 48) < 24)
      && (10 * (m1.toNat - 48) + (m2.toNat - 48) < 60)
  | _ => false

/-- Membership test for the schema `"HH:MM"` regular expression. -/
def validHHMM (s : String) : Bool := validHHMMChars s.data

/-- Character-list form of `split(':').map(Number)` on `"HH:MM"` shapes. -/
def parseHHMMChars : List Char → Nat × Nat
  | [h1, h2, c, m1, m2] =>
    if c == ':' then
      (10 * (h1.toNat - 48) + (h2.toNat - 48), 10 * (m1.toNat - 48) + (m2.toNat - 48))
    else (0, 0)
  | _ => (0, 0)

/-- `workBlock.startTime.split(':').map(Number)` for schema-valid `"HH:MM"`
strings, returning (hours, minutes); arbitrary on other shapes. -/
def parseHHMM (s : String) : Nat × Nat := parseHHMMChars s.data

/-- A block as constrained by the `WeeklyAvailabilitySchema` validators:
regex-valid boundary strings with `endTime > startTime` (JS string order). -/
def wellFormedBlock (b : WeeklyAvailabilityBlock) : Bool :=
  validHHMM b.startTime && validHHMM b.endTime
    && strLe b.startTime b.endTime && !(b.startTime == b.endTime)

/-- The instant on the day starting at `dateMidnight` whose wall clock reads
the given `"HH:MM"` string (conversion of a listed slot back to an instant). -/
def instantOfHHMM (dateMidnight : Int) (s : String) : Int :=
  dateMidnight + (parseHHMM s).1 * msPerHour + (parseHHMM s).2 * msPerMinute

/-! ## The Booking Conflict Resolver -/

/-- The Mongoose conflict query of `checkDoctorAvailability` /
`fetchDoctorAvailabilitySlots`, evaluated on one appointment document:
same doctor, blocking status (`Confirmed` or `Requested`), not soft-deleted,
`appointmentTime < requestedEnd`, and
`appointmentTime + durationMinutes * 60000 > requestedStart`,
optionally excluding one appointment id. -/
def matchesConflictQuery (doctorId : Nat) (reqStart reqEnd : Int)
    (excludeId : Option Nat) (a : Appointment) : Bool :=
  (a.doctor == doctorId)
    && (a.status == .confirmed || a.status == .requested)
    && !a.isDeleted
    && (a.appointmentTime < reqEnd)
    && (a.appointmentTime + a.durationMinutes * msPerMinute > reqStart)
    && (match excludeId with | some i => !(a.id == i) | none => true)

/-- `Appointment.findOne(conflictQuery)`: rejects when the store is down,
otherwise returns the first matching document. -/
def findOneConflict (env : Env) (doctorId : Nat) (reqStart reqEnd : Int)
    (excludeId : Option Nat) : Except ApiError (Option Appointment) :=
  if env.queryFails then .error .infrastructure
  else .ok (env.appointments.find? (matchesConflictQuery doctorId reqStart reqEnd excludeId))

/-- Pure content of the conflict query against the appointment collection. -/
def hasConflict (appointments : List Appointment) (doctorId : Nat)
    (startMs durationMinutes : Int) (excludeId : Option Nat) : Bool :=
  (appointments.find?
    (matchesConflictQuery doctorId startMs (startMs + durationMinutes * msPerMinute) excludeId)).isSome

/-- `DoctorProfile.findById`: the soft-delete plugin's pre-find hook filters
out documents with `isDeleted = true` (`base.model.js`). -/
def findDoctorById (env : Env) (doctorId : Nat) : Option DoctorProfile :=
  env.doctors.find? (fun d => d.id == doctorId && !d.isDeleted)

/-! ## The Availability Evaluator -/

/-- The schedule-containment step of `checkDoctorAvailability`
(appointment.service.js lines 352–386): filter the weekly schedule to the
start instant's day of week, and accept iff some block contains the
`[start, start+duration)` window under `"HH:MM"` string comparison. -/
def isWithinSchedule (schedule : List WeeklyAvailabilityBlock)
    (requestedStart durationMinutes : Int) : Bool :=
  let requestedEnd := requestedStart + durationMinutes * msPerMinute
  let requestedDayOfWeek := dateGetDay requestedStart
  let workingBlocksForDay := schedule.filter (fun b => b.dayOfWeek == requestedDayOfWeek)
  let requestedStartTimeHHMM := formatToHHMM requestedStart
  let requestedEndTimeHHMM := formatToHHMM requestedEnd
  workingBlocksForDay.any (fun b =>
    strLe b.startTime requestedStartTimeHHMM && strLe requestedEndTimeHHMM b.endTime)

/-- `checkDoctorAvailability(doctorId, requestedStartTimeDate, durationMinutes,
excludeAppointmentId)`: 404 if the doctor lookup fails; false if the window is
outside every working block (no store query is issued in that case);
otherwise the negation of the conflict query, whose rejection propagates. -/
def checkDoctorAvailability (env : Env) (doctorId : Nat) (requestedStart : Int)
    (durationMinutes : Int) (excludeAppointmentId : Option Nat) :
    Except ApiError Bool :=
  match findDoctorById env doctorId with
  | none => .error (.notFound "Doctor profile not found for availability check.")
  | some doctorProfile =>
    if isWithinSchedule doctorProfile.weeklySchedule requestedStart durationMinutes then
      match findOneConflict env doctorId requestedStart
          (requestedStart + durationMinutes * msPerMinute) excludeAppointmentId with
      | .error e => .error e
      | .ok (some _) => .ok false
      | .ok none => .ok true
    else .ok false

/-! ## Appointment lifecycle operations (`appointment.service.js`) -/

/-- `Appointment.findOne({ _id, isDeleted: { $ne: true } })`. -/
def findAppointmentById (env : Env) (appointmentId : Nat) : Option Appointment :=
  env.appointments.find? (fun a => a.id == appointmentId && !a.isDeleted)

/-- JavaScript `x || y` on a possibly-absent number (`0` is falsy). -/
def jsOrNum (x : Option Int) (y : Int) : Int :=
  match x with
  | some d => if d == 0 then y else d
  | none => y

/-- JavaScript truthiness of a possibly-absent number (`0` is falsy). -/
def numProvided (x : Option Int) : Bool :=
  match x with
  | some d => !(d == 0)
  | none => false

/-- Input of `createAppointment`: `appointmentTime` is the result of
`new Date(appointmentTime)` (`none` when unparseable); `durationMinutes`
defaults to 30 when absent. -/
structure CreateInput where
  patient : Option Nat
  doctor : Nat
  appointmentTime : Option Int
  durationMinutes : Option Int
deriving Repr

/-- `createAppointment(appointmentData, requestedByUser)` (appointment.service.js
lines 420–474).  Returns the updated collection state and the new document;
`newId` stands for the identifier minted by the store. -/
def createAppointment (env : Env) (input : CreateInput) (requestedByUser : User)
    (newId : Nat) : Except ApiError (Env × Appointment) := do
  let patientProfileId ←
    if requestedByUser.role == .patient then
      match requestedByUser.patientProfile with
      | none => Except.error (.badRequest "Patient profile not found for the requesting user.")
      | some p => Except.ok p
    else
      match input.patient with
      | none => Except.error (.badRequest "Patient ID is required when Staff/Admin creates an appointment.")
      | some p => Except.ok p
  let patientExists := env.patients.any (fun p => p.id == patientProfileId && !p.isDeleted)
  let doctorExists := env.doctors.any (fun d => d.id == input.doctor && !d.isDeleted)
  if !patientExists then Except.error (.notFound "Patient profile not found.")
  else if !doctorExists then Except.error (.notFound "Doctor profile not found.")
  else
    match input.appointmentTime with
    | none => Except.error (.badRequest "Invalid or past appointment time specified.")
    | some requestedTime =>
      if requestedTime ≤ env.now then
        Except.error (.badRequest "Invalid or past appointment time specified.")
      else do
        let durationMinutes := jsOrNum input.durationMinutes 30
        let isAvailable ← checkDoctorAvailability env input.doctor requestedTime durationMinutes none
        if !isAvailable then
          Except.error (.conflict "Doctor is not available at the requested time or a conflict exists.")
        else
          let initialStatus : AppointmentStatus :=
            if requestedByUser.role == .staff || requestedByUser.role == .admin then
              .confirmed
            else .requested
          let newAppointment : Appointment :=
            { id := newId
              patient := patientProfileId
              doctor := input.doctor
              appointmentTime := requestedTime
              durationMinutes := durationMinutes
              status := initialStatus
              cancellationReason := none
              completionNotes := none
              isDeleted := false }
          Except.ok ({ env with appointments := env.appointments ++ [newAppointment] },
                     newAppointment)

/-- Input of `updateAppointment`: `appointmentTime` is `none` when the field is
absent, `some none` when present but unparseable, `some (some t)` otherwise. -/
structure UpdateInput where
  status : Option AppointmentStatus
  appointmentTime : Option (Option Int)
  durationMinutes : Option Int
  completionNotes : Option String
  cancellationReason : Option String
deriving Repr

/-- Replace the stored document with id `appointmentId` (the effect of
`appointment.save()` on the collection). -/
def saveAppointment (env : Env) (appointmentId : Nat) (a : Appointment) : Env :=
  { env with appointments := env.appointments.map (fun x => if x.id == appointmentId then a else x) }

/-- `updateAppointment(appointmentId, updateData, updatedByUser)`
(appointment.service.js lines 543–577).  Note: the source never checks the
appointment's current status before applying the requested mutation. -/
def updateAppointment (env : Env) (appointmentId : Nat) (upd : UpdateInput)
    (updatedByUser : User) : Except ApiError (Env × Appointment) := do
  match findAppointmentById env appointmentId with
  | none => Except.error (.notFound "Appointment not found.")
  | some appointment =>
    if (upd.status == some .confirmed || upd.status == some .completed)
        && !(updatedByUser.role == .doctor || updatedByUser.role == .staff
              || updatedByUser.role == .admin) then
      Except.error (.forbidden "Forbidden: Only Doctor, Staff, or Admin can confirm/complete appointments.")
    else do
      let afterTime ←
        match upd.appointmentTime with
        | none => Except.ok appointment
        | some none =>
          Except.error (.badRequest "Invalid or past appointment time specified for reschedule.")
        | some (some newTime) =>
          if newTime ≤ env.now then
            Except.error (.badRequest "Invalid or past appointment time specified for reschedule.")
          else do
            let newDuration := jsOrNum upd.durationMinutes appointment.durationMinutes
            let isAvailable ← checkDoctorAvailability env appointment.doctor newTime newDuration
              (some appointmentId)
            if !isAvailable then
              Except.error (.conflict "Doctor is not available at the requested reschedule time or a conflict exists.")
            else
              Except.ok { appointment with
                appointmentTime := newTime
                durationMinutes :=
                  if numProvided upd.durationMinutes then newDuration
                  else appointment.durationMinutes }
      let afterStatus :=
        match upd.status with
        | some s => { afterTime with status := s }
        | none => afterTime
      let afterNotes :=
        match upd.completionNotes with
        | some n => if upd.status == some .completed then { afterStatus with completionNotes := some n } else afterStatus
        | none => afterStatus
      let afterReason :=
        match upd.cancellationReason with
        | some r => if upd.status == some .cancelled then { afterNotes with cancellationReason := some r } else afterNotes
        | none => afterNotes
      Except.ok (saveAppointment env appointmentId afterReason, afterReason)

/-- `cancelAppointment(appointmentId, reason, cancelledByUser)`
(appointment.service.js lines 582–613). -/
def cancelAppointment (env : Env) (appointmentId : Nat) (reason : String)
    (cancelledByUser : User) : Except ApiError (Env × Appointment) :=
  match findAppointmentById env appointmentId with
  | none => Except.error (.notFound "Appointment not found.")
  | some appointment =>
    if appointment.status == .cancelled || appointment.status == .completed then
      Except.error (.badRequest "Cannot cancel appointment with this status.")
    else
      let isPatientOwner := cancelledByUser.role == .patient
        && cancelledByUser.patientProfile == some appointment.patient
      let isDoctorOwner := cancelledByUser.role == .doctor
        && cancelledByUser.doctorProfile == some appointment.doctor
      let isStaffOrAdmin := cancelledByUser.role == .staff || cancelledByUser.role == .admin
      let canCancel :=
        (isPatientOwner
            && (appointment.status == .requested || appointment.status == .confirmed))
          || isDoctorOwner || isStaffOrAdmin
      if !canCancel then
        Except.error (.forbidden "Forbidden: You are not authorized to cancel this appointment.")
      else
        let updated := { appointment with
          status := .cancelled
          cancellationReason := some reason }
        Except.ok (saveAppointment env appointmentId updated, updated)

/-! ## Day-slot listing (`doctor.service.js`, `fetchDoctorAvailabilitySlots`) -/

/-- 15-minute scan increment, in milliseconds (`slotIncrement`). -/
def stepMs : Int := 900000

/-- The candidate slot starts produced by the per-block `while` loop: instants
`blockStart + k * stepMs` while the start lies before the block end, cut off
(the `break`) at the first candidate whose end would exceed the block end. -/
def blockCandidates (blockStart blockEnd durMs : Int) : List Int :=
  ((List.range (((blockEnd - blockStart + stepMs - 1) / stepMs).toNat)).map
    (fun k : Nat => blockStart + (k : Int) * stepMs)).takeWhile
    (fun t => t + durMs ≤ blockEnd)

/-- The conflict probe + `HH:MM` push for each candidate start of one block. -/
def collectBlockSlots (env : Env) (doctorId : Nat) (durMs : Int) :
    List Int → Except ApiError (List String)
  | [] => Except.ok []
  | t :: ts => do
    let conflict ← findOneConflict env doctorId t (t + durMs) none
    let rest ← collectBlockSlots env doctorId durMs ts
    Except.ok (if conflict.isSome then rest else formatToHHMM t :: rest)

/-- The outer `for (const workBlock of workingSlots)` loop: parse the block's
boundary strings, materialise them on the requested date, and scan. -/
def collectAllBlocks (env : Env) (doctorId : Nat) (dateMidnight durMs : Int) :
    List WeeklyAvailabilityBlock → Except ApiError (List String)
  | [] => Except.ok []
  | b :: bs => do
    let blockStart := instantOfHHMM dateMidnight b.startTime
    let blockEnd := instantOfHHMM dateMidnight b.endTime
    let here ← collectBlockSlots env doctorId durMs (blockCandidates blockStart blockEnd durMs)
    let rest ← collectAllBlocks env doctorId dateMidnight durMs bs
    Except.ok (here ++ rest)

/-- `[...new Set(arr)]`: de-duplicate keeping first occurrences. -/
def dedupFirst (seen : List String) : List String → List String
  | [] => []
  | x :: xs => if seen.contains x then dedupFirst seen xs else x :: dedupFirst (x :: seen) xs

/-- Insert into a `strLe`-sorted list (auxiliary for modelling `.sort()`). -/
def insertSorted (x : String) : List String → List String
  | [] => [x]
  | y :: ys => if strLe x y then x :: y :: ys else y :: insertSorted x ys

/-- Ascending code-unit sort: the output of `Array.prototype.sort()` with the
default comparator (on distinct strings the sorted permutation is unique, so
any correct sort yields this result). -/
def sortSlots : List String → List String
  | [] => []
  | x :: xs => insertSorted x (sortSlots xs)

/-- `[...new Set(availableTimeSlots)].sort()`: de-duplicate, then sort by the
default (code-unit lexicographic) comparator. -/
def dedupSortSlots (l : List String) : List String :=
  sortSlots (dedupFirst [] l)

/-- `fetchDoctorAvailabilitySlots(doctorId, dateString, durationMinutes)`
(doctor.service.js lines 153–218).  `dateMidnight` is the local-midnight
instant of the already-parsed `YYYY-MM-DD` date. -/
def fetchDoctorAvailabilitySlots (env : Env) (doctorId : Nat) (dateMidnight : Int)
    (durationMinutes : Int) : Except ApiError (List String) := do
  match findDoctorById env doctorId with
  | none => Except.error (.notFound "Doctor profile not found.")
  | some doctorProfile =>
    let dayOfWeek := dateGetDay dateMidnight
    let workingSlots := doctorProfile.weeklySchedule.filter (fun b => b.dayOfWeek == dayOfWeek)
    if workingSlots.isEmpty then Except.ok []
    else do
      let collected ← collectAllBlocks env doctorId dateMidnight
        (durationMinutes * msPerMinute) workingSlots
      Except.ok (dedupSortSlots collected)

/-! ## Lemmas: digits and lexicographic comparison -/

lemma digitChar_toNat {n : Nat} (h : n < 10) : (digitChar n).toNat = 48 + n := by
  interval_cases n <;> decide

lemma lexLe_cons (a b : Char) (as bs : List Char) :
    lexLe (a :: as) (b :: bs) =
      (if a.toNat < b.toNat then true
       else if b.toNat < a.toNat then false
       else lexLe as bs) := rfl

lemma lexLe_pad2 (a b : Nat) (ha : a < 100) (hb : b < 100) (r s : List Char) :
    lexLe (pad2 a ++ r) (pad2 b ++ s) =
      (if a < b then true else if b < a then false else lexLe r s) := by
  have h1 : (digitChar (a / 10)).toNat = 48 + a / 10 := digitChar_toNat (by omega)
  have h2 : (digitChar (b / 10)).toNat = 48 + b / 10 := digitChar_toNat (by omega)
  have h3 : (digitChar (a % 10)).toNat = 48 + a % 10 := digitChar_toNat (by omega)
  have h4 : (digitChar (b % 10)).toNat = 48 + b % 10 := digitChar_toNat (by omega)
  simp only [pad2, List.cons_append, List.nil_append, lexLe_cons, h1, h2, h3, h4]
  rcases Nat.lt_trichotomy (a / 10) (b / 10) with h | h | h
  · rw [if_pos (by omega), if_pos (by omega)]
  · rw [if_neg (by omega), if_neg (by omega)]
    rcases Nat.lt_trichotomy (a % 10) (b % 10) with h' | h' | h'
    · rw [if_pos (by omega), if_pos (by omega)]
    · rw [if_neg (by omega), if_neg (by omega), if_neg (by omega), if_neg (by omega)]
    · rw [if_neg (by omega), if_pos (by omega), if_neg (by omega), if_pos (by omega)]
  · rw [if_neg (by omega), if_pos (by omega), if_neg (by omega), if_pos (by omega)]

lemma data_minutesToHHMM (m : Nat) :
    (minutesToHHMM m).data = pad2 (m / 60) ++ ':' :: pad2 (m % 60) := rfl

lemma lexLe_minutesToHHMM (m n : Nat) (hm : m < 1440) (hn : n < 1440) :
    lexLe (minutesToHHMM m).data (minutesToHHMM n).data = decide (m ≤ n) := by
  rw [data_minutesToHHMM, data_minutesToHHMM]
  have hcolon : (':' :: pad2 (m % 60) : List Char) = ':' :: (pad2 (m % 60) ++ []) := by
    simp
  have hcolon' : (':' :: pad2 (n % 60) : List Char) = ':' :: (pad2 (n % 60) ++ []) := by
    simp
  rw [hcolon, hcolon', lexLe_pad2 _ _ (by omega) (by omega)]
  rcases Nat.lt_trichotomy (m / 60) (n / 60) with h | h | h
  · rw [if_pos h]
    have : m ≤ n := by omega
    simp [this]
  · rw [if_neg (by omega), if_neg (by omega), lexLe_cons, if_neg (by omega),
      if_neg (by omega), lexLe_pad2 _ _ (by omega) (by omega)]
    rcases Nat.lt_trichotomy (m % 60) (n % 60) with h' | h' | h'
    · rw [if_pos h']
      have : m ≤ n := by omega
      simp [this]
    · rw [if_neg (by omega), if_neg (by omega)]
      have : m ≤ n := by omega
      simp [this, lexLe]
    · rw [if_neg (by omega), if_pos h']
      have : ¬ m ≤ n := by omega
      simp [this]
  · rw [if_neg (by omega), if_pos h]
    have : ¬ m ≤ n := by omega
    simp [this]

lemma strLe_minutesToHHMM (m n : Nat) (hm : m < 1440) (hn : n < 1440) :
    strLe (minutesToHHMM m) (minutesToHHMM n) = decide (m ≤ n) :=
  lexLe_minutesToHHMM m n hm hn

lemma parseHHMM_minutesToHHMM (m : Nat) (hm : m < 1440) :
    parseHHMM (minutesToHHMM m) = (m / 60, m % 60) := by
  have h1 : (digitChar (m / 60 / 10)).toNat = 48 + m / 60 / 10 := digitChar_toNat (by omega)
  have h2 : (digitChar (m / 60 % 10)).toNat = 48 + m / 60 % 10 := digitChar_toNat (by omega)
  have h3 : (digitChar (m % 60 / 10)).toNat = 48 + m % 60 / 10 := digitChar_toNat (by omega)
  have h4 : (digitChar (m % 60 % 10)).toNat = 48 + m % 60 % 10 := digitChar_toNat (by omega)
  show parseHHMMChars (minutesToHHMM m).data = (m / 60, m % 60)
  rw [data_minutesToHHMM]
  simp only [pad2, List.cons_append, List.nil_append, parseHHMMChars, beq_self_eq_true,
    if_true, h1, h2, h3, h4, Prod.mk.injEq]
  constructor <;> omega

lemma minutesToHHMM_injOn {m n : Nat} (hm : m < 1440) (hn : n < 1440)
    (h : minutesToHHMM m = minutesToHHMM n) : m = n := by
  have hp := parseHHMM_minutesToHHMM m hm
  rw [h, parseHHMM_minutesToHHMM n hn] at hp
  have h1 : n / 60 = m / 60 := by
    have := congrArg Prod.fst hp
    simpa using this
  have h2 : n % 60 = m % 60 := by
    have := congrArg Prod.snd hp
    simpa using this
  omega

lemma validHHMM_exists {s : String} (h : validHHMM s = true) :
    ∃ m : Nat, m < 1440 ∧ s = minutesToHHMM m := by
  have hinj : ∀ c : Char, 48 ≤ c.toNat → c.toNat ≤ 57 → digitChar (c.toNat - 48) = c := by
    intro c hlo hhi
    have hv : 48 + (c.toNat - 48) = c.toNat := by omega
    rw [digitChar, hv, Char.ofNat_toNat]
  unfold validHHMM at h
  rcases hs : s.data with _ | ⟨c1, l⟩
  · exfalso; rw [hs] at h; simp [validHHMMChars] at h
  rcases l with _ | ⟨c2, l⟩
  · exfalso; rw [hs] at h; simp [validHHMMChars] at h
  rcases l with _ | ⟨c3, l⟩
  · exfalso; rw [hs] at h; simp [validHHMMChars] at h
  rcases l with _ | ⟨c4, l⟩
  · exfalso; rw [hs] at h; simp [validHHMMChars] at h
  rcases l with _ | ⟨c5, l⟩
  · exfalso; rw [hs] at h; simp [validHHMMChars] at h
  rcases l with _ | ⟨c6, l⟩
  case cons.cons.cons.cons.cons.cons =>
    exfalso; rw [hs] at h; simp [validHHMMChars] at h
  rw [hs] at h
  simp only [validHHMMChars, Bool.and_eq_true, beq_iff_eq, decide_eq_true_eq] at h
  obtain ⟨⟨⟨⟨⟨⟨hc, h1a, h1b⟩, h2a, h2b⟩, h4a, h4b⟩, h5a, h5b⟩, hhv⟩, hmv⟩ := h
  refine ⟨(10 * (c1.toNat - 48) + (c2.toNat - 48)) * 60
      + (10 * (c4.toNat - 48) + (c5.toNat - 48)), by omega, ?_⟩
  apply String.ext
  rw [hs, data_minutesToHHMM]
  have hH : ((10 * (c1.toNat - 48) + (c2.toNat - 48)) * 60
      + (10 * (c4.toNat - 48) + (c5.toNat - 48))) / 60
      = 10 * (c1.toNat - 48) + (c2.toNat - 48) := by omega
  have hM : ((10 * (c1.toNat - 48) + (c2.toNat - 48)) * 60
      + (10 * (c4.toNat - 48) + (c5.toNat - 48))) % 60
      = 10 * (c4.toNat - 48) + (c5.toNat - 48) := by omega
  have hH10 : (10 * (c1.toNat - 48) + (c2.toNat - 48)) / 10 = c1.toNat - 48 := by omega
  have hH1 : (10 * (c1.toNat - 48) + (c2.toNat - 48)) % 10 = c2.toNat - 48 := by omega
  have hM10 : (10 * (c4.toNat - 48) + (c5.toNat - 48)) / 10 = c4.toNat - 48 := by omega
  have hM1 : (10 * (c4.toNat - 48) + (c5.toNat - 48)) % 10 = c5.toNat - 48 := by omega
  rw [hH, hM]
  simp only [pad2, hH10, hH1, hM10, hM1, List.cons_append, List.nil_append]
  rw [hinj c1 h1a h1b, hinj c2 h2a h2b, hinj c4 h4a h4b, hinj c5 h5a h5b, hc]

/-! ## Lemmas: wall-clock arithmetic on a fixed day -/

lemma formatToHHMM_midnight_add (dateMidnight : Int) (m : Nat)
    (hmid : dateMidnight % msPerDay = 0) (hm : m < 1440) :
    formatToHHMM (dateMidnight + (m : Int) * msPerMinute) = minutesToHHMM m := by
  have hh : (dateGetHours (dateMidnight + (m : Int) * msPerMinute)).toNat = m / 60 := by
    simp only [dateGetHours, msPerHour, msPerMinute, msPerDay] at *
    omega
  have hmm : (dateGetMinutes (dateMidnight + (m : Int) * msPerMinute)).toNat = m % 60 := by
    simp only [dateGetMinutes, msPerMinute, msPerDay] at *
    omega
  unfold formatToHHMM minutesToHHMM
  rw [hh, hmm]

lemma dateGetDay_midnight_add (dateMidnight : Int) (m : Nat)
    (hmid : dateMidnight % msPerDay = 0) (hm : m < 1440) :
    dateGetDay (dateMidnight + (m : Int) * msPerMinute) = dateGetDay dateMidnight := by
  simp only [dateGetDay, msPerDay, msPerMinute] at *
  omega

lemma instantOfHHMM_minutesToHHMM (dateMidnight : Int) (m : Nat) (hm : m < 1440) :
    instantOfHHMM dateMidnight (minutesToHHMM m) = dateMidnight + (m : Int) * msPerMinute := by
  unfold instantOfHHMM
  rw [parseHHMM_minutesToHHMM m hm]
  simp only [msPerHour, msPerMinute]
  push_cast
  omega

/-! ## Lemmas: specification forms of the two pure checks -/

lemma isWithinSchedule_spec (schedule : List WeeklyAvailabilityBlock) (t d : Int) :
    isWithinSchedule schedule t d = true ↔
      ∃ b ∈ schedule, b.dayOfWeek = dateGetDay t
        ∧ strLe b.startTime (formatToHHMM t) = true
        ∧ strLe (formatToHHMM (t + d * msPerMinute)) b.endTime = true := by
  unfold isWithinSchedule
  simp only [List.any_eq_true, List.mem_filter, Bool.and_eq_true, beq_iff_eq]
  constructor
  · rintro ⟨b, ⟨hb, hday⟩, hs, he⟩
    exact ⟨b, hb, hday, hs, he⟩
  · rintro ⟨b, hb, hday, hs, he⟩
    exact ⟨b, ⟨hb, hday⟩, hs, he⟩

lemma excludeOk_iff (excl : Option Nat) (n : Nat) :
    (match excl with | some i => !(n == i) | none => true) = true ↔
      ∀ i, excl = some i → n ≠ i := by
  cases excl <;> simp

lemma matchesConflictQuery_iff (doctorId : Nat) (reqStart reqEnd : Int)
    (excl : Option Nat) (a : Appointment) :
    matchesConflictQuery doctorId reqStart reqEnd excl a = true ↔
      a.doctor = doctorId
        ∧ (a.status = .confirmed ∨ a.status = .requested)
        ∧ a.isDeleted = false
        ∧ a.appointmentTime < reqEnd
        ∧ reqStart < a.appointmentTime + a.durationMinutes * msPerMinute
        ∧ ∀ i, excl = some i → a.id ≠ i := by
  unfold matchesConflictQuery
  rw [Bool.and_eq_true, excludeOk_iff]
  simp only [Bool.and_eq_true, Bool.or_eq_true, beq_iff_eq, Bool.not_eq_true',
    decide_eq_true_eq, gt_iff_lt]
  tauto

lemma hasConflict_spec (appts : List Appointment) (doctorId : Nat) (s1 d1 : Int)
    (excl : Option Nat) :
    hasConflict appts doctorId s1 d1 excl = true ↔
      ∃ a ∈ appts, a.doctor = doctorId
        ∧ (a.status = .confirmed ∨ a.status = .requested)
        ∧ a.isDeleted = false
        ∧ (∀ i, excl = some i → a.id ≠ i)
        ∧ s1 < a.appointmentTime + a.durationMinutes * msPerMinute
        ∧ a.appointmentTime < s1 + d1 * msPerMinute := by
  unfold hasConflict
  rw [List.find?_isSome]
  constructor
  · rintro ⟨a, ha, hp⟩
    rw [matchesConflictQuery_iff] at hp
    exact ⟨a, ha, hp.1, hp.2.1, hp.2.2.1, hp.2.2.2.2.2, hp.2.2.2.2.1, hp.2.2.2.1⟩
  · rintro ⟨a, ha, h1, h2, h3, h4, h5, h6⟩
    exact ⟨a, ha, (matchesConflictQuery_iff _ _ _ _ _).mpr ⟨h1, h2, h3, h6, h5, h4⟩⟩

lemma findOneConflict_ok {env : Env} (hq : env.queryFails = false)
    (doctorId : Nat) (reqStart reqEnd : Int) (excl : Option Nat) :
    findOneConflict env doctorId reqStart reqEnd excl =
      .ok (env.appointments.find? (matchesConflictQuery doctorId reqStart reqEnd excl)) := by
  unfold findOneConflict
  rw [hq]
  simp

/-! ## Lemmas: the slot listing under a healthy store -/

/-- Pure content of `collectBlockSlots` when the store answers queries. -/
def collectBlockSlotsPure (appts : List Appointment) (doctorId : Nat) (durMs : Int) :
    List Int → List String
  | [] => []
  | t :: ts =>
    let rest := collectBlockSlotsPure appts doctorId durMs ts
    if (appts.find? (matchesConflictQuery doctorId t (t + durMs) none)).isSome then rest
    else formatToHHMM t :: rest

/-- Pure content of `collectAllBlocks` when the store answers queries. -/
def collectAllBlocksPure (appts : List Appointment) (doctorId : Nat)
    (dateMidnight durMs : Int) : List WeeklyAvailabilityBlock → List String
  | [] => []
  | b :: bs =>
    collectBlockSlotsPure appts doctorId durMs
        (blockCandidates (instantOfHHMM dateMidnight b.startTime)
          (instantOfHHMM dateMidnight b.endTime) durMs)
      ++ collectAllBlocksPure appts doctorId dateMidnight durMs bs

lemma exceptOkBind {α β ε : Type} (a : α) (f : α → Except ε β) :
    (Except.ok a : Except ε α) >>= f = f a := rfl

lemma collectBlockSlots_ok {env : Env} (hq : env.queryFails = false)
    (doctorId : Nat) (durMs : Int) (l : List Int) :
    collectBlockSlots env doctorId durMs l =
      .ok (collectBlockSlotsPure env.appointments doctorId durMs l) := by
  induction l with
  | nil => rfl
  | cons t ts ih =>
    simp only [collectBlockSlots, collectBlockSlotsPure,
      findOneConflict_ok hq, ih, exceptOkBind]

lemma collectAllBlocks_ok {env : Env} (hq : env.queryFails = false)
    (doctorId : Nat) (dateMidnight durMs : Int) (bs : List WeeklyAvailabilityBlock) :
    collectAllBlocks env doctorId dateMidnight durMs bs =
      .ok (collectAllBlocksPure env.appointments doctorId dateMidnight durMs bs) := by
  induction bs with
  | nil => rfl
  | cons b bs ih =>
    simp only [collectAllBlocks, collectAllBlocksPure, collectBlockSlots_ok hq,
      ih, exceptOkBind]

lemma mem_collectBlockSlotsPure {appts : List Appointment} {doctorId : Nat} {durMs : Int}
    {ts : List Int} {s : String} (h : s ∈ collectBlockSlotsPure appts doctorId durMs ts) :
    ∃ t ∈ ts, s = formatToHHMM t
      ∧ appts.find? (matchesConflictQuery doctorId t (t + durMs) none) = none := by
  induction ts with
  | nil => simp [collectBlockSlotsPure] at h
  | cons t ts ih =>
    simp only [collectBlockSlotsPure] at h
    by_cases hc : (appts.find? (matchesConflictQuery doctorId t (t + durMs) none)).isSome
    · rw [if_pos hc] at h
      obtain ⟨t', ht', hs⟩ := ih h
      exact ⟨t', List.mem_cons_of_mem _ ht', hs⟩
    · rw [if_neg hc] at h
      rcases List.mem_cons.mp h with h | h
      · exact ⟨t, List.mem_cons_self _ _, h, Option.not_isSome_iff_eq_none.mp hc⟩
      · obtain ⟨t', ht', hs⟩ := ih h
        exact ⟨t', List.mem_cons_of_mem _ ht', hs⟩

lemma mem_collectAllBlocksPure {appts : List Appointment} {doctorId : Nat}
    {dateMidnight durMs : Int} {bs : List WeeklyAvailabilityBlock} {s : String}
    (h : s ∈ collectAllBlocksPure appts doctorId dateMidnight durMs bs) :
    ∃ b ∈ bs, s ∈ collectBlockSlotsPure appts doctorId durMs
      (blockCandidates (instantOfHHMM dateMidnight b.startTime)
        (instantOfHHMM dateMidnight b.endTime) durMs) := by
  induction bs with
  | nil => simp [collectAllBlocksPure] at h
  | cons b bs ih =>
    simp only [collectAllBlocksPure, List.mem_append] at h
    rcases h with h | h
    · exact ⟨b, List.mem_cons_self _ _, h⟩
    · obtain ⟨b', hb', hs⟩ := ih h
      exact ⟨b', List.mem_cons_of_mem _ hb', hs⟩

lemma mem_blockCandidates {blockStart blockEnd durMs t : Int}
    (h : t ∈ blockCandidates blockStart blockEnd durMs) :
    ∃ k : Nat, t = blockStart + (k : Int) * stepMs ∧ t < blockEnd
      ∧ t + durMs ≤ blockEnd := by
  unfold blockCandidates at h
  have hpred := List.mem_takeWhile_imp h
  have hmem := (List.takeWhile_sublist _).subset h
  simp only [List.mem_map, List.mem_range] at hmem
  obtain ⟨k, hk, rfl⟩ := hmem
  simp only [decide_eq_true_eq] at hpred
  refine ⟨k, rfl, ?_, hpred⟩
  simp only [stepMs] at *
  omega

lemma mem_dedupFirst {l : List String} {seen : List String} {s : String}
    (h : s ∈ dedupFirst seen l) : s ∈ l := by
  induction l generalizing seen with
  | nil => simp [dedupFirst] at h
  | cons x xs ih =>
    simp only [dedupFirst] at h
    by_cases hx : seen.contains x
    · rw [if_pos hx] at h
      exact List.mem_cons_of_mem _ (ih h)
    · rw [if_neg hx] at h
      rcases List.mem_cons.mp h with h | h
      · exact h ▸ List.mem_cons_self _ _
      · exact List.mem_cons_of_mem _ (ih h)

lemma mem_insertSorted {x y : String} {l : List String}
    (h : y ∈ insertSorted x l) : y = x ∨ y ∈ l := by
  induction l with
  | nil => simp [insertSorted] at h; exact Or.inl h
  | cons z zs ih =>
    simp only [insertSorted] at h
    by_cases hle : strLe x z = true
    · rw [if_pos hle] at h
      rcases List.mem_cons.mp h with h | h
      · exact Or.inl h
      · exact Or.inr h
    · rw [if_neg hle] at h
      rcases List.mem_cons.mp h with h | h
      · exact Or.inr (h ▸ List.mem_cons_self _ _)
      · rcases ih h with h | h
        · exact Or.inl h
        · exact Or.inr (List.mem_cons_of_mem _ h)

lemma mem_sortSlots {l : List String} {s : String} (h : s ∈ sortSlots l) : s ∈ l := by
  induction l with
  | nil => simp [sortSlots] at h
  | cons x xs ih =>
    simp only [sortSlots] at h
    rcases mem_insertSorted h with h | h
    · exact h ▸ List.mem_cons_self _ _
    · exact List.mem_cons_of_mem _ (ih h)

lemma mem_dedupSortSlots {l : List String} {s : String} (h : s ∈ dedupSortSlots l) :
    s ∈ l := by
  unfold dedupSortSlots at h
  exact mem_dedupFirst (mem_sortSlots h)

lemma fetchSlots_run {env : Env} {doctorId : Nat} {dateMidnight dur : Int}
    {slots : List String} (hq : env.queryFails = false)
    (hrun : fetchDoctorAvailabilitySlots env doctorId dateMidnight dur = .ok slots) :
    ∃ doc, findDoctorById env doctorId = some doc ∧
      (slots = [] ∨
        slots = dedupSortSlots (collectAllBlocksPure env.appointments doctorId dateMidnight
          (dur * msPerMinute)
          (doc.weeklySchedule.filter (fun b => b.dayOfWeek == dateGetDay dateMidnight)))) := by
  unfold fetchDoctorAvailabilitySlots at hrun
  cases hfd : findDoctorById env doctorId with
  | none => rw [hfd] at hrun; simp at hrun
  | some doc =>
    rw [hfd] at hrun
    refine ⟨doc, rfl, ?_⟩
    by_cases he : (doc.weeklySchedule.filter
        (fun b => b.dayOfWeek == dateGetDay dateMidnight)).isEmpty
    · simp only [he, if_true] at hrun
      left
      exact (Except.ok.injEq _ _).mp hrun.symm
    · simp only [he, Bool.false_eq_true, if_false, collectAllBlocks_ok hq,
        exceptOkBind] at hrun
      right
      exact ((Except.ok.injEq _ _).mp hrun).symm

lemma block_slot_available
    {env : Env} {doctorId : Nat} {doc : DoctorProfile} {dateMidnight dur : Int}
    {b : WeeklyAvailabilityBlock} {s : String}
    (hmid : dateMidnight % msPerDay = 0)
    (hq : env.queryFails = false)
    (hdur : 0 < dur)
    (hfd : findDoctorById env doctorId = some doc)
    (hb : b ∈ doc.weeklySchedule)
    (hday : b.dayOfWeek = dateGetDay dateMidnight)
    (hwfb : wellFormedBlock b = true)
    (hs : s ∈ collectBlockSlotsPure env.appointments doctorId (dur * msPerMinute)
      (blockCandidates (instantOfHHMM dateMidnight b.startTime)
        (instantOfHHMM dateMidnight b.endTime) (dur * msPerMinute))) :
    checkDoctorAvailability env doctorId (instantOfHHMM dateMidnight s) dur none = .ok true := by
  obtain ⟨t, ht, hsfmt, hnone⟩ := mem_collectBlockSlotsPure hs
  obtain ⟨k, htk, htlt, htend⟩ := mem_blockCandidates ht
  unfold wellFormedBlock at hwfb
  simp only [Bool.and_eq_true] at hwfb
  obtain ⟨⟨⟨hvs, hve⟩, _⟩, _⟩ := hwfb
  obtain ⟨sm, hsm, hbs⟩ := validHHMM_exists hvs
  obtain ⟨em, hem, hbe⟩ := validHHMM_exists hve
  have hstart : instantOfHHMM dateMidnight b.startTime
      = dateMidnight + (sm : Int) * msPerMinute := by
    rw [hbs, instantOfHHMM_minutesToHHMM _ _ hsm]
  have hend : instantOfHHMM dateMidnight b.endTime
      = dateMidnight + (em : Int) * msPerMinute := by
    rw [hbe, instantOfHHMM_minutesToHHMM _ _ hem]
  rw [hstart] at htk
  rw [hend] at htlt htend
  set m : Nat := sm + 15 * k with hm
  have htm : t = dateMidnight + (m : Int) * msPerMinute := by
    rw [htk, hm]
    simp only [msPerMinute, stepMs]
    push_cast
    ring
  have hmem2 : m < em := by
    rw [htm] at htlt
    simp only [msPerMinute] at htlt
    omega
  have hm1440 : m < 1440 := by omega
  have hmdur : (m : Int) + dur ≤ (em : Int) := by
    rw [htm] at htend
    simp only [msPerMinute] at htend
    omega
  have hfmt : s = minutesToHHMM m := by
    rw [hsfmt, htm, formatToHHMM_midnight_add _ _ hmid hm1440]
  have hinst : instantOfHHMM dateMidnight s = t := by
    rw [hfmt, instantOfHHMM_minutesToHHMM _ _ hm1440, htm]
  rw [hinst]
  unfold checkDoctorAvailability
  simp only [hfd]
  have hwithin : isWithinSchedule doc.weeklySchedule t dur = true := by
    rw [isWithinSchedule_spec]
    refine ⟨b, hb, ?_, ?_, ?_⟩
    · rw [hday, htm, dateGetDay_midnight_add _ _ hmid hm1440]
    · rw [hbs, htm, formatToHHMM_midnight_add _ _ hmid hm1440,
        strLe_minutesToHHMM _ _ hsm hm1440]
      simp only [decide_eq_true_eq]
      omega
    · have he : t + dur * msPerMinute
          = dateMidnight + ((m + dur.toNat : Nat) : Int) * msPerMinute := by
        rw [htm]
        simp only [msPerMinute]
        omega
      rw [he, hbe, formatToHHMM_midnight_add _ _ hmid (by omega),
        strLe_minutesToHHMM _ _ (by omega) hem]
      simp only [decide_eq_true_eq]
      omega
  rw [if_pos hwithin, findOneConflict_ok hq, hnone]

lemma slot_available_of_mem
    {env : Env} {doctorId : Nat} {dateMidnight dur : Int} {slots : List String} {s : String}
    (hmid : dateMidnight % msPerDay = 0)
    (hq : env.queryFails = false)
    (hdur : 0 < dur)
    (hwf : ∀ d ∈ env.doctors, ∀ b ∈ d.weeklySchedule, wellFormedBlock b = true)
    (hrun : fetchDoctorAvailabilitySlots env doctorId dateMidnight dur = .ok slots)
    (hs : s ∈ slots) :
    checkDoctorAvailability env doctorId (instantOfHHMM dateMidnight s) dur none = .ok true := by
  obtain ⟨doc, hfd, hcase⟩ := fetchSlots_run hq hrun
  rcases hcase with rfl | hslots
  · simp at hs
  · rw [hslots] at hs
    obtain ⟨b, hbf, hsb⟩ := mem_collectAllBlocksPure (mem_dedupSortSlots hs)
    rw [List.mem_filter] at hbf
    obtain ⟨hb, hday⟩ := hbf
    have hdoc : doc ∈ env.doctors := by
      unfold findDoctorById at hfd
      exact List.mem_of_find?_eq_some hfd
    exact block_slot_available hmid hq hdur hfd hb (by simpa using hday)
      (hwf doc hdoc b hb) hsb

/-! ## Concrete fixtures for the scenario theorems -/

/-- A doctor with one Monday block 09:00–12:00. -/
def docA : DoctorProfile :=
  { id := 1, weeklySchedule := [⟨1, "09:00", "12:00"⟩], isDeleted := false }

def patA : PatientProfile := { id := 10, isDeleted := false }

/-- Healthy store, no appointments. -/
def envA : Env :=
  { doctors := [docA], patients := [patA], appointments := [], now := 0, queryFails := false }

/-- Local midnight of Monday 1970-01-05 (`dateGetDay` = 1). -/
def monMidnight : Int := 345600000

/-- An existing `Confirmed` 10:00 + 30 min booking on that Monday. -/
def apptTen : Appointment :=
  { id := 5, patient := 10, doctor := 1, appointmentTime := monMidnight + 600 * msPerMinute,
    durationMinutes := 30, status := .confirmed, cancellationReason := none,
    completionNotes := none, isDeleted := false }

def envB : Env := { envA with appointments := [apptTen] }

def staffUser : User := { id := 50, role := .staff, patientProfile := none, doctorProfile := none }

def patientUser : User :=
  { id := 60, role := .patient, patientProfile := some 10, doctorProfile := none }

/-- A `Completed` (terminal) appointment. -/
def completedAppt : Appointment := { apptTen with id := 2, status := .completed }

def envT : Env := { envA with appointments := [completedAppt] }

/-- The doctor's profile soft-deleted. -/
def deletedDoc : DoctorProfile := { docA with id := 2, isDeleted := true }

def envDel : Env := { envA with doctors := [deletedDoc] }

/-- The same store two days later: the Monday slots lie in the past. -/
def envPast : Env := { envA with now := monMidnight + 2 * msPerDay }

lemma checkOkTrue_no_conflict {env : Env} {doctorId : Nat} {t d : Int} {ex : Option Nat}
    (hq : env.queryFails = false)
    (h : checkDoctorAvailability env doctorId t d ex = .ok true) :
    hasConflict env.appointments doctorId t d ex = false := by
  unfold checkDoctorAvailability at h
  cases hfd : findDoctorById env doctorId with
  | none => rw [hfd] at h; simp at h
  | some doc =>
    simp only [hfd] at h
    by_cases hw : isWithinSchedule doc.weeklySchedule t d = true
    · rw [if_pos hw, findOneConflict_ok hq] at h
      unfold hasConflict
      cases hfind : env.appointments.find?
          (matchesConflictQuery doctorId t (t + d * msPerMinute) ex) with
      | none => simp [hfind]
      | some a => rw [hfind] at h; simp at h
    · rw [if_neg hw] at h
      simp at h

/-! ## The claims -/

/-- C1: the conflict check reports a conflict iff some blocking (Requested or
Confirmed), non-soft-deleted appointment of the same doctor satisfies the
half-open overlap rule `s1 < s2 + d2` and `s1 + d1 > s2`; touching intervals
never match the query; concretely, against a Confirmed 10:00+30 booking,
creating 10:15+30 fails with Conflict and creating 10:30+30 succeeds. -/
theorem C1_overlap_rule (appts : List Appointment) (doctorId : Nat) (s1 d1 : Int)
    (excl : Option Nat) :
    (hasConflict appts doctorId s1 d1 excl = true ↔
      ∃ a ∈ appts, a.doctor = doctorId
        ∧ (a.status = .confirmed ∨ a.status = .requested)
        ∧ a.isDeleted = false
        ∧ (∀ i, excl = some i → a.id ≠ i)
        ∧ s1 < a.appointmentTime + a.durationMinutes * msPerMinute
        ∧ s1 + d1 * msPerMinute > a.appointmentTime)
    ∧ (∀ a : Appointment,
        (s1 + d1 * msPerMinute = a.appointmentTime
          ∨ a.appointmentTime + a.durationMinutes * msPerMinute = s1) →
        matchesConflictQuery doctorId s1 (s1 + d1 * msPerMinute) excl a = false)
    ∧ createAppointment envB
        { patient := some 10, doctor := 1,
          appointmentTime := some (monMidnight + 615 * msPerMinute),
          durationMinutes := some 30 } staffUser 7
      = .error (.conflict "Doctor is not available at the requested time or a conflict exists.")
    ∧ (∃ env2 a2, createAppointment envB
        { patient := some 10, doctor := 1,
          appointmentTime := some (monMidnight + 630 * msPerMinute),
          durationMinutes := some 30 } staffUser 7 = .ok (env2, a2)) := by
  refine ⟨hasConflict_spec appts doctorId s1 d1 excl, ?_, rfl, ⟨_, _, rfl⟩⟩
  intro a ha
  rcases heq : matchesConflictQuery doctorId s1 (s1 + d1 * msPerMinute) excl a with _ | _
  · rfl
  · exfalso
    rw [matchesConflictQuery_iff] at heq
    obtain ⟨-, -, -, hlt1, hlt2, -⟩ := heq
    rcases ha with ha | ha
    · rw [← ha] at hlt1
      exact lt_irrefl _ hlt1
    · rw [ha] at hlt2
      exact lt_irrefl _ hlt2

/-- C1 witness: at the Scenario B data, 10:15+30 conflicts with the 10:00+30
booking, and the 10:30-touching interval does not match the conflict query. -/
theorem C1_overlap_rule_witness :
    hasConflict [apptTen] 1 (monMidnight + 615 * msPerMinute) 30 none = true
    ∧ matchesConflictQuery 1 (monMidnight + 630 * msPerMinute)
        (monMidnight + 630 * msPerMinute + 30 * msPerMinute) none apptTen = false := by
  constructor
  · apply (C1_overlap_rule [apptTen] 1 (monMidnight + 615 * msPerMinute) 30 none).1.mpr
    refine ⟨apptTen, ?_, rfl, Or.inl rfl, rfl, ?_, ?_, ?_⟩
    · simp
    · intro i h
      cases h
    · decide
    · decide
  · exact (C1_overlap_rule [apptTen] 1 (monMidnight + 630 * msPerMinute) 30 none).2.1
      apptTen (Or.inr (by decide))

/-- C2: the schedule-containment step returns true iff at least one block with
matching `dayOfWeek` contains the window under lexicographic comparison of the
zero-padded `HH:MM` strings, and it returns false on a day with no blocks. -/
theorem C2_schedule_containment (schedule : List WeeklyAvailabilityBlock) (t d : Int) :
    (isWithinSchedule schedule t d = true ↔
      ∃ b ∈ schedule, b.dayOfWeek = dateGetDay t
        ∧ strLe b.startTime (formatToHHMM t) = true
        ∧ strLe (formatToHHMM (t + d * msPerMinute)) b.endTime = true)
    ∧ (schedule.filter (fun b => b.dayOfWeek == dateGetDay t) = [] →
        isWithinSchedule schedule t d = false) := by
  refine ⟨isWithinSchedule_spec schedule t d, ?_⟩
  intro hf
  simp only [isWithinSchedule, hf, List.any_nil]

/-- C2 witness: the 09:00+30 window on the Monday lies inside docA's block,
and Tuesday (day 2) has no blocks, hence containment is false. -/
theorem C2_schedule_containment_witness :
    isWithinSchedule docA.weeklySchedule (monMidnight + 540 * msPerMinute) 30 = true
    ∧ isWithinSchedule docA.weeklySchedule (monMidnight + msPerDay + 540 * msPerMinute) 30
      = false := by
  constructor
  · exact (C2_schedule_containment docA.weeklySchedule
        (monMidnight + 540 * msPerMinute) 30).1.mpr
      ⟨⟨1, "09:00", "12:00"⟩, by simp [docA], by decide, by decide, by decide⟩
  · exact (C2_schedule_containment docA.weeklySchedule
        (monMidnight + msPerDay + 540 * msPerMinute) 30).2 (by decide)

/-- C3: the composite availability check raises NotFound exactly when the
doctor lookup fails; with the doctor found it returns `ok false` outside the
schedule, `ok (not hasConflict)` when the store answers, and propagates the
store failure (never answering "available") when the conflict query rejects. -/
theorem C3_conflict_resolver_errors (env : Env) (doctorId : Nat) (t d : Int)
    (excl : Option Nat) :
    ((∃ msg, checkDoctorAvailability env doctorId t d excl = .error (.notFound msg)) ↔
      findDoctorById env doctorId = none)
    ∧ (∀ doc, findDoctorById env doctorId = some doc →
        (isWithinSchedule doc.weeklySchedule t d = false →
          checkDoctorAvailability env doctorId t d excl = .ok false)
        ∧ (env.queryFails = false → isWithinSchedule doc.weeklySchedule t d = true →
          checkDoctorAvailability env doctorId t d excl
            = .ok (!hasConflict env.appointments doctorId t d excl))
        ∧ (env.queryFails = true → isWithinSchedule doc.weeklySchedule t d = true →
          checkDoctorAvailability env doctorId t d excl = .error .infrastructure)) := by
  cases hfd : findDoctorById env doctorId with
  | none =>
    have hres : checkDoctorAvailability env doctorId t d excl
        = .error (.notFound "Doctor profile not found for availability check.") := by
      unfold checkDoctorAvailability
      rw [hfd]
    refine ⟨⟨fun _ => rfl, fun _ => ⟨_, hres⟩⟩, ?_⟩
    intro doc hdoc
    cases hdoc
  | some doc =>
    have hok : ∀ x : Bool, checkDoctorAvailability env doctorId t d excl = .ok x →
        ¬ ∃ msg, checkDoctorAvailability env doctorId t d excl = .error (.notFound msg) := by
      rintro x hx ⟨msg, hmsg⟩
      rw [hx] at hmsg
      cases hmsg
    constructor
    · constructor
      · rintro ⟨msg, hmsg⟩
        exfalso
        unfold checkDoctorAvailability at hmsg
        rw [hfd] at hmsg
        revert hmsg
        simp only []
        by_cases hw : isWithinSchedule doc.weeklySchedule t d = true
        · rw [if_pos hw]
          unfold findOneConflict
          by_cases hqf : env.queryFails = true
          · rw [if_pos hqf]
            intro hmsg
            cases hmsg
          · rw [if_neg hqf]
            cases env.appointments.find?
                (matchesConflictQuery doctorId t (t + d * msPerMinute) excl) with
            | none => intro hmsg; cases hmsg
            | some a => intro hmsg; cases hmsg
        · rw [if_neg hw]
          intro hmsg
          cases hmsg
      · intro h
        cases h
    · intro doc' hdoc'
      obtain rfl := Option.some.inj hdoc'
      refine ⟨?_, ?_, ?_⟩
      · intro hfalse
        unfold checkDoctorAvailability
        simp only [hfd]
        rw [if_neg (by rw [hfalse]; simp)]
      · intro hq0 hw
        unfold checkDoctorAvailability
        simp only [hfd]
        rw [if_pos hw, findOneConflict_ok hq0]
        unfold hasConflict
        cases hfind : env.appointments.find?
            (matchesConflictQuery doctorId t (t + d * msPerMinute) excl) with
        | none => rfl
        | some a => rfl
      · intro hq1 hw
        unfold checkDoctorAvailability
        simp only [hfd]
        rw [if_pos hw]
        unfold findOneConflict
        rw [if_pos hq1]

/-- C3 witness: with the doctor present, a healthy store and the 09:00+30
window, the check returns `ok (not hasConflict)`; with no doctors it raises
NotFound. -/
theorem C3_conflict_resolver_errors_witness :
    checkDoctorAvailability envA 1 (monMidnight + 540 * msPerMinute) 30 none
      = .ok (!hasConflict envA.appointments 1 (monMidnight + 540 * msPerMinute) 30 none)
    ∧ (∃ msg, checkDoctorAvailability { envA with doctors := [] } 1
        (monMidnight + 540 * msPerMinute) 30 none = .error (.notFound msg)) := by
  constructor
  · exact (((C3_conflict_resolver_errors envA 1 (monMidnight + 540 * msPerMinute) 30
      none).2 docA rfl).2.1) rfl (by decide)
  · exact (C3_conflict_resolver_errors { envA with doctors := [] } 1
      (monMidnight + 540 * msPerMinute) 30 none).1.mpr rfl

/-- C4 (failing input): `updateAppointment` never checks the current status, so
a `Completed` (terminal) appointment is mutated to `Cancelled` by a plain
status update — while `cancelAppointment` does reject terminal states. -/
theorem C4_update_mutates_terminal :
    completedAppt.status = .completed
    ∧ (∃ env2 a2, updateAppointment envT 2
        { status := some .cancelled, appointmentTime := none, durationMinutes := none,
          completionNotes := none, cancellationReason := some "changed my mind" }
        patientUser = .ok (env2, a2) ∧ a2.status = .cancelled)
    ∧ cancelAppointment envT 2 "changed my mind" patientUser
      = .error (.badRequest "Cannot cancel appointment with this status.") :=
  ⟨rfl, ⟨_, _, rfl, rfl⟩, rfl⟩

/-- C5: every slot string returned by the day listing, converted back to an
instant on that date, passes the composite availability check, and in
particular conflicts with no existing blocking appointment. -/
theorem C5_slot_enumeration_consistent
    (env : Env) (doctorId : Nat) (dateMidnight dur : Int) (slots : List String)
    (s : String)
    (hmid : dateMidnight % msPerDay = 0)
    (hq : env.queryFails = false)
    (hdur : 0 < dur)
    (hwf : ∀ d ∈ env.doctors, ∀ b ∈ d.weeklySchedule, wellFormedBlock b = true)
    (hrun : fetchDoctorAvailabilitySlots env doctorId dateMidnight dur = .ok slots)
    (hs : s ∈ slots) :
    checkDoctorAvailability env doctorId (instantOfHHMM dateMidnight s) dur none = .ok true
    ∧ hasConflict env.appointments doctorId (instantOfHHMM dateMidnight s) dur none
      = false := by
  have h1 := slot_available_of_mem hmid hq hdur hwf hrun hs
  exact ⟨h1, checkOkTrue_no_conflict hq h1⟩

/-- C5 witness: on the Scenario B store (10:00+30 already booked), the listed
slot "10:30" feeds back through the composite check as available. -/
theorem C5_slot_enumeration_consistent_witness :
    (fetchDoctorAvailabilitySlots envB 1 monMidnight 30
        = .ok ["09:00", "09:15", "09:30", "10:30", "10:45", "11:00", "11:15", "11:30"])
    ∧ checkDoctorAvailability envB 1 (instantOfHHMM monMidnight "10:30") 30 none = .ok true
    ∧ hasConflict envB.appointments 1 (instantOfHHMM monMidnight "10:30") 30 none
      = false := by
  refine ⟨rfl, ?_⟩
  exact C5_slot_enumeration_consistent envB 1 monMidnight 30
    ["09:00", "09:15", "09:30", "10:30", "10:45", "11:00", "11:15", "11:30"] "10:30"
    (by decide) rfl (by decide) (by decide) rfl (by decide)

/-- C6 counterexample: a Monday 23:45 + 30 min window ends on Tuesday, yet the
containment check accepts it against Monday's 09:00–12:00 block, because the
wrapped end wall-clock "00:15" compares below "12:00". -/
theorem C6_counterexample :
    dayIndex (monMidnight + 1425 * msPerMinute + 30 * msPerMinute)
      ≠ dayIndex (monMidnight + 1425 * msPerMinute)
    ∧ isWithinSchedule docA.weeklySchedule (monMidnight + 1425 * msPerMinute) 30
      = true := by
  constructor
  · decide
  · decide

/-- C6 amended: for a window crossing midnight the containment step does not
always return false — it compares only wall-clock `HH:MM` strings, accepting
the window iff some matching block contains the start `HH:MM` and the wrapped
end `HH:MM`. -/
theorem C6_amended_midnight_crossing (schedule : List WeeklyAvailabilityBlock)
    (t d : Int) (_hcross : dayIndex t ≠ dayIndex (t + d * msPerMinute)) :
    isWithinSchedule schedule t d = true ↔
      ∃ b ∈ schedule, b.dayOfWeek = dateGetDay t
        ∧ strLe b.startTime (formatToHHMM t) = true
        ∧ strLe (formatToHHMM (t + d * msPerMinute)) b.endTime = true :=
  isWithinSchedule_spec schedule t d

/-- C6 amended witness: the crossing Monday 23:45 + 30 min window is accepted
by docA's 09:00–12:00 Monday block via the wrapped wall-clock comparison. -/
theorem C6_amended_midnight_crossing_witness :
    dayIndex (monMidnight + 1425 * msPerMinute)
      ≠ dayIndex (monMidnight + 1425 * msPerMinute + 30 * msPerMinute)
    ∧ isWithinSchedule docA.weeklySchedule (monMidnight + 1425 * msPerMinute) 30
      = true := by
  have h := C6_amended_midnight_crossing docA.weeklySchedule
    (monMidnight + 1425 * msPerMinute) 30 (by decide)
  exact ⟨by decide, h.mpr (by decide)⟩

/-- C7 (Scenario A): on the Monday, docA's 09:00–12:00 block with duration 30
yields exactly the 15-minute-stepped starts 09:00 … 11:30 (11:30 + 30 ends
exactly at the block end), sorted and duplicate-free. -/
theorem C7_scenario_A :
    dateGetDay monMidnight = 1
    ∧ fetchDoctorAvailabilitySlots envA 1 monMidnight 30
      = .ok ["09:00", "09:15", "09:30", "09:45", "10:00", "10:15", "10:30", "10:45",
             "11:00", "11:15", "11:30"] :=
  ⟨rfl, rfl⟩

/-- C8: cancellation gating — terminal statuses are rejected with the
"cannot cancel" 400; a non-owning patient gets Forbidden; an owning patient
succeeds exactly in `Requested`/`Confirmed` (Forbidden on `NoShow`); doctor
owner, staff and admin may cancel any non-terminal appointment. -/
theorem C8_cancel_gating (env : Env) (appointmentId : Nat) (reason : String)
    (u : User) (apt : Appointment)
    (hfind : findAppointmentById env appointmentId = some apt) :
    ((apt.status = .cancelled ∨ apt.status = .completed) →
      cancelAppointment env appointmentId reason u
        = .error (.badRequest "Cannot cancel appointment with this status."))
    ∧ (apt.status ≠ .cancelled → apt.status ≠ .completed →
        u.role = .patient → u.patientProfile ≠ some apt.patient →
      cancelAppointment env appointmentId reason u
        = .error (.forbidden "Forbidden: You are not authorized to cancel this appointment."))
    ∧ (u.role = .patient → (apt.status = .requested ∨ apt.status = .confirmed) →
        u.patientProfile = some apt.patient →
      ∃ env2 a2, cancelAppointment env appointmentId reason u = .ok (env2, a2)
        ∧ a2.status = .cancelled)
    ∧ (u.role = .patient → apt.status = .noShow →
      cancelAppointment env appointmentId reason u
        = .error (.forbidden "Forbidden: You are not authorized to cancel this appointment."))
    ∧ ((apt.status = .requested ∨ apt.status = .confirmed ∨ apt.status = .noShow) →
        (u.role = .staff ∨ u.role = .admin
          ∨ (u.role = .doctor ∧ u.doctorProfile = some apt.doctor)) →
      ∃ env2 a2, cancelAppointment env appointmentId reason u = .ok (env2, a2)
        ∧ a2.status = .cancelled) := by
  unfold cancelAppointment
  simp only [hfind]
  refine ⟨?_, ?_, ?_, ?_, ?_⟩
  · intro h
    rw [if_pos (by rcases h with h | h <;> simp [h])]
  · intro h1 h2 hrole hown
    rw [if_neg (by simp [h1, h2]), if_pos (by simp [hrole, hown])]
  · intro hrole hst hown
    rw [if_neg (by rcases hst with h | h <;> simp [h]),
      if_neg (by rcases hst with h | h <;> simp [h, hrole, hown])]
    exact ⟨_, _, rfl, rfl⟩
  · intro hrole hst
    rw [if_neg (by simp [hst]), if_pos (by simp [hst, hrole])]
  · intro hst hwho
    rw [if_neg (by rcases hst with h | h | h <;> simp [h])]
    rw [if_neg ?_]
    · exact ⟨_, _, rfl, rfl⟩
    · rcases hwho with h | h | ⟨h, h'⟩ <;> simp [h]
      exact h'

/-- C8 witness: the owning patient cancels the Confirmed 10:00 booking, while
a different patient gets Forbidden on the same appointment. -/
theorem C8_cancel_gating_witness :
    (∃ env2 a2, cancelAppointment envB 5 "feeling better" patientUser = .ok (env2, a2)
      ∧ a2.status = .cancelled)
    ∧ cancelAppointment envB 5 "feeling better"
        { id := 61, role := .patient, patientProfile := some 11, doctorProfile := none }
      = .error (.forbidden "Forbidden: You are not authorized to cancel this appointment.") := by
  constructor
  · exact (C8_cancel_gating envB 5 "feeling better" patientUser apptTen rfl).2.2.1
      rfl (Or.inr rfl) rfl
  · exact (C8_cancel_gating envB 5 "feeling better"
      { id := 61, role := .patient, patientProfile := some 11, doctorProfile := none }
      apptTen rfl).2.1 (by decide) (by decide) rfl (by decide)

/-- C9: when every doctor record with the requested id is soft-deleted, both
availability operations fail with the same NotFound as for a missing id. -/
theorem C9_soft_deleted_doctor (env : Env) (doctorId : Nat) (t dateMidnight d : Int)
    (excl : Option Nat)
    (hdel : ∀ doc ∈ env.doctors, doc.id = doctorId → doc.isDeleted = true) :
    checkDoctorAvailability env doctorId t d excl
      = .error (.notFound "Doctor profile not found for availability check.")
    ∧ fetchDoctorAvailabilitySlots env doctorId dateMidnight d
      = .error (.notFound "Doctor profile not found.") := by
  have hfd : findDoctorById env doctorId = none := by
    unfold findDoctorById
    rw [List.find?_eq_none]
    intro doc hdoc h
    rw [Bool.and_eq_true] at h
    obtain ⟨hid, hnd⟩ := h
    rw [beq_iff_eq] at hid
    rw [Bool.not_eq_true'] at hnd
    rw [hdel doc hdoc hid] at hnd
    exact Bool.noConfusion hnd
  constructor
  · unfold checkDoctorAvailability
    rw [hfd]
  · unfold fetchDoctorAvailabilitySlots
    rw [hfd]

/-- C9 witness: with docA's record soft-deleted under id 2, both operations
answer NotFound. -/
theorem C9_soft_deleted_doctor_witness :
    checkDoctorAvailability envDel 2 (monMidnight + 540 * msPerMinute) 30 none
      = .error (.notFound "Doctor profile not found for availability check.")
    ∧ fetchDoctorAvailabilitySlots envDel 2 monMidnight 30
      = .error (.notFound "Doctor profile not found.") :=
  C9_soft_deleted_doctor envDel 2 (monMidnight + 540 * msPerMinute) monMidnight 30 none
    (by decide)

lemma findOneConflict_congr {env env' : Env}
    (happ : env.appointments = env'.appointments)
    (hq : env.queryFails = env'.queryFails)
    (doctorId : Nat) (reqStart reqEnd : Int) (excl : Option Nat) :
    findOneConflict env doctorId reqStart reqEnd excl
      = findOneConflict env' doctorId reqStart reqEnd excl := by
  unfold findOneConflict
  rw [happ, hq]

lemma collectBlockSlots_congr {env env' : Env}
    (happ : env.appointments = env'.appointments)
    (hq : env.queryFails = env'.queryFails)
    (doctorId : Nat) (durMs : Int) (l : List Int) :
    collectBlockSlots env doctorId durMs l = collectBlockSlots env' doctorId durMs l := by
  induction l with
  | nil => rfl
  | cons t ts ih =>
    simp only [collectBlockSlots, findOneConflict_congr happ hq, ih]

lemma collectAllBlocks_congr {env env' : Env}
    (happ : env.appointments = env'.appointments)
    (hq : env.queryFails = env'.queryFails)
    (doctorId : Nat) (dateMidnight durMs : Int) (bs : List WeeklyAvailabilityBlock) :
    collectAllBlocks env doctorId dateMidnight durMs bs
      = collectAllBlocks env' doctorId dateMidnight durMs bs := by
  induction bs with
  | nil => rfl
  | cons b bs ih =>
    simp only [collectAllBlocks, collectBlockSlots_congr happ hq, ih]

lemma fetchSlots_congr {env env' : Env}
    (hdocs : env.doctors = env'.doctors)
    (happ : env.appointments = env'.appointments)
    (hq : env.queryFails = env'.queryFails)
    (doctorId : Nat) (dateMidnight dur : Int) :
    fetchDoctorAvailabilitySlots env doctorId dateMidnight dur
      = fetchDoctorAvailabilitySlots env' doctorId dateMidnight dur := by
  unfold fetchDoctorAvailabilitySlots
  have hfd : findDoctorById env doctorId = findDoctorById env' doctorId := by
    unfold findDoctorById
    rw [hdocs]
  rw [hfd]
  cases findDoctorById env' doctorId with
  | none => rfl
  | some doc =>
    simp only [collectAllBlocks_congr happ hq]

/-- C10 (implicit): the day listing applies no future-time filter — it is
independent of the clock — so for a date already in the past it still returns
the elapsed starts, each of which `createAppointment` rejects as past. -/
theorem C10_no_future_filter :
    (∀ (env : Env) (n1 n2 : Int) (doctorId : Nat) (dateMidnight dur : Int),
      fetchDoctorAvailabilitySlots { env with now := n1 } doctorId dateMidnight dur
        = fetchDoctorAvailabilitySlots { env with now := n2 } doctorId dateMidnight dur)
    ∧ (∃ slots, fetchDoctorAvailabilitySlots envPast 1 monMidnight 30 = .ok slots
        ∧ "09:00" ∈ slots)
    ∧ monMidnight + 540 * msPerMinute ≤ envPast.now
    ∧ createAppointment envPast
        { patient := some 10, doctor := 1,
          appointmentTime := some (monMidnight + 540 * msPerMinute),
          durationMinutes := some 30 } staffUser 7
      = .error (.badRequest "Invalid or past appointment time specified.") := by
  refine ⟨?_, ⟨["09:00", "09:15", "09:30", "09:45", "10:00", "10:15", "10:30", "10:45",
      "11:00", "11:15", "11:30"], rfl, by decide⟩, by decide, rfl⟩
  intro env n1 n2 doctorId dateMidnight dur
  exact @fetchSlots_congr { env with now := n1 } { env with now := n2 } rfl rfl rfl
    doctorId dateMidnight dur
